import Mathlib

/-!
Verification of the `ident_str` procedural macro (src/src/lib.rs).

The development shallowly embeds the crate's data model and its two
operations:

* `translateStream` — the body rewriter `translate_stream`;
* `identStr` — the driver `ident_str` (declaration processing, placeholder
  map construction, diagnostics, rewriting).

Tokens follow proc-macro2's four-variant token tree (identifier, literal,
punctuation with spacing hint, delimited group), each carrying a span.
Spans are opaque source locations, modelled as natural numbers; the fixed
span that `proc_macro2::Group::new` attaches to a freshly built group
(`Span::call_site()`) is modelled by the constant `callSite`.

The two external identifier tests the crate relies on are distinct and are
modelled by distinct predicates.  The driver validates evaluated strings
with `syn::parse_str::<Ident>` (modelled by `synParseIdent`), which accepts
any string lexing to a single identifier token — including raw identifiers
`r#name` — except the underscore token and Rust keywords.  The rewriter
then calls `proc_macro2::Ident::new` (validity modelled by `identNewOk`),
which accepts exactly the plain identifiers: nonempty, an identifier start
character followed by identifier continuation characters, keywords
included, raw spellings excluded (`#` is not an identifier character).
The two predicates overlap but neither contains the other: `"r#foo"`
satisfies `synParseIdent` and not `identNewOk`, `"fn"` the reverse.
String evaluation of declaration values (the `macro-string` dependency)
happens during parsing and is not under verification; a declaration
therefore carries its already-evaluated value, `some s` for a resolved
string and `none` for the `None` sentinel.
-/

namespace IdentStr

/-- Opaque source location attached to every token. -/
abbrev Span := Nat

/-- The span `proc_macro2` gives tokens built at the macro's call site,
in particular groups freshly constructed by `Group::new`. -/
def callSite : Span := 0

/-- Spacing hint of a punctuation token (`proc_macro2::Spacing`). -/
inductive Spacing where
  | alone
  | joint
deriving DecidableEq, Repr

/-- Group delimiter (`proc_macro2::Delimiter`). -/
inductive Delim where
  | paren
  | bracket
  | brace
  | none
deriving DecidableEq, Repr

mutual
/-- A proc-macro2 token tree: identifier, literal, punctuation character
(with spacing hint), or delimited group; every variant carries a span. -/
inductive TokenTree where
  | ident (name : String) (span : Span)
  | lit (text : String) (span : Span)
  | punct (ch : Char) (spacing : Spacing) (span : Span)
  | group (delim : Delim) (stream : TokenStream) (span : Span)
deriving DecidableEq, Repr

/-- A token stream: a sequence of token trees. -/
inductive TokenStream where
  | nil
  | cons (head : TokenTree) (tail : TokenStream)
deriving DecidableEq, Repr
end

/-- Concatenation of token streams (`TokenStreamExt::append` iterated). -/
def TokenStream.append : TokenStream → TokenStream → TokenStream
  | .nil, t => t
  | .cons h t, t' => .cons h (t.append t')

/-- The span carried by a token tree. -/
def TokenTree.span : TokenTree → Span
  | .ident _ sp => sp
  | .lit _ sp => sp
  | .punct _ _ sp => sp
  | .group _ _ sp => sp

/-- The spans of the top-level tokens of a stream. -/
def TokenStream.topSpans : TokenStream → List Span
  | .nil => []
  | .cons t ts => t.span :: ts.topSpans

mutual
/-- A token tree with every span erased: the token's lexical content only
(kind, spelling, delimiter, nesting). -/
def TokenTree.eraseSpans : TokenTree → TokenTree
  | .ident n _ => .ident n callSite
  | .lit l _ => .lit l callSite
  | .punct c spc _ => .punct c spc callSite
  | .group d s _ => .group d s.eraseSpans callSite

/-- A token stream with every span erased. -/
def TokenStream.eraseSpans : TokenStream → TokenStream
  | .nil => .nil
  | .cons t ts => .cons t.eraseSpans ts.eraseSpans
end

/-- Lexical test for an identifier's first character. -/
def isIdentStart (c : Char) : Bool := c.isAlpha || c = '_'

/-- Lexical test for an identifier's continuation characters. -/
def isIdentContinue (c : Char) : Bool := c.isAlphanum || c = '_'

/-- A nonempty character sequence spelling one plain identifier: an
identifier start character followed by identifier continuation
characters. -/
def identCharsOk : List Char → Bool
  | [] => false
  | c :: cs => isIdentStart c && cs.all isIdentContinue

/-- `proc_macro2::Ident::new`'s validity requirement (its `validate_ident`
with `raw = false`): the string must spell one plain identifier.  Keywords
are accepted; raw spellings such as `"r#foo"` are not (`#` is not an
identifier character), so `Ident::new` panics on them. -/
def identNewOk (s : String) : Bool := identCharsOk s.toList

/-- Membership of a string in a list of spellings. -/
def memStr (s : String) : List String → Bool
  | [] => false
  | t :: ts => if s = t then true else memStr s ts

/-- The spellings syn's `Ident` parse refuses (its `accept_as_ident`):
the underscore token and the Rust keywords. -/
def synRejectedSpellings : List String :=
  ["_", "abstract", "as", "async", "await", "become", "box", "break",
   "const", "continue", "crate", "do", "dyn", "else", "enum", "extern",
   "false", "final", "fn", "for", "if", "impl", "in", "let", "loop",
   "macro", "match", "mod", "move", "mut", "override", "priv", "pub",
   "ref", "return", "Self", "self", "static", "struct", "super", "trait",
   "true", "try", "type", "typeof", "unsafe", "unsized", "use", "virtual",
   "where", "while", "yield"]

/-- The spellings that may not follow `r#` in a raw identifier
(proc-macro2 refuses them while lexing). -/
def rawForbidden : List String := ["_", "super", "self", "Self", "crate"]

/-- Models `syn::parse_str::<Ident>` succeeding: the string must lex to a
single identifier token — a plain identifier, or a raw identifier
`r#name` with `name` a valid, non-forbidden spelling — and syn's `Ident`
parse must accept its spelling (it refuses the underscore token and Rust
keywords; a raw identifier's spelling starts with `r#` and so is never
refused).  In particular `"r#foo"` passes this check although
`identNewOk "r#foo" = false`. -/
def synParseIdent (s : String) : Bool :=
  match s.toList with
  | 'r' :: '#' :: cs =>
      identCharsOk cs && !(memStr (String.mk cs) rawForbidden)
  | _ => identNewOk s && !(memStr s synRejectedSpellings)

/-- A parsed declaration `# name = value` (struct `Decl`).  The source
struct retains the `#` token, the name identifier and the `=` token (each
with its span) and the evaluated value: `some s` when the value was a
macro-string that evaluated to `s`, `none` for the `None` sentinel. -/
structure Decl where
  hashSpan : Span
  name : String
  nameSpan : Span
  eqSpan : Span
  value : Option String
deriving DecidableEq, Repr

/-- `Decl::name_to_tokens`: the declaration's `#` punctuation followed by
its name identifier, spans preserved. -/
def Decl.nameToTokens (d : Decl) : TokenStream :=
  .cons (.punct '#' .alone d.hashSpan) (.cons (.ident d.name d.nameSpan) .nil)

/-- A diagnostic (`syn::Error::new_spanned`): the tokens it spans and its
message. -/
structure Diag where
  tokens : TokenStream
  msg : String
deriving DecidableEq, Repr

/-- Lookup in the placeholder map (`HashMap::get`), modelled on an
association list. -/
def mapGet (k : String) : List (String × Decl) → Option Decl
  | [] => Option.none
  | (k', d) :: rest => if k' = k then some d else mapGet k rest

/-- Insertion into the placeholder map (`HashMap::insert`): overwrites an
existing binding of the same key. -/
def mapInsert (k : String) (d : Decl) : List (String × Decl) → List (String × Decl)
  | [] => [(k, d)]
  | (k', d') :: rest =>
      if k' = k then (k, d) :: rest else (k', d') :: mapInsert k d rest

/-- The undefined-placeholder error message of `translate_stream`. -/
def undefMsg (k : String) : String :=
  "Unknown ident variable.  If you intended to literally use '#" ++ k ++
    "', add `#" ++ k ++ " = None` to the declarations"

/-- `translate_stream`: walks the body stream with one-token lookahead.
Identifiers, literals and non-`#` punctuation pass through; a group is
rebuilt from its translated contents by `Group::new` — whose span is
`callSite` — followed by `group.set_span(group.span())`, a self-assignment
that leaves that span in place; `#` followed by an identifier is a
placeholder reference resolved through the map.  Returns `none` when
`Ident::new` would panic (resolved value failing `identNewOk`), otherwise
the rewritten stream and the diagnostics in traversal order. -/
def translateStream (map : List (String × Decl)) :
    TokenStream → Option (TokenStream × List Diag)
  | .nil => some (.nil, [])
  | .cons (.ident n sp) rest =>
      match translateStream map rest with
      | Option.none => Option.none
      | some (ts, ds) => some (.cons (.ident n sp) ts, ds)
  | .cons (.lit l sp) rest =>
      match translateStream map rest with
      | Option.none => Option.none
      | some (ts, ds) => some (.cons (.lit l sp) ts, ds)
  | .cons (.group d inner sp) rest =>
      match translateStream map inner with
      | Option.none => Option.none
      | some (inner', ds1) =>
          match translateStream map rest with
          | Option.none => Option.none
          | some (ts, ds2) =>
              some (.cons (.group d inner' callSite) ts, ds1 ++ ds2)
  | .cons (.punct c spc sp) rest@(.cons (.ident name isp) rest2) =>
      if c = '#' then
        match mapGet name map with
        | some d =>
            match d.value with
            | some s =>
                if identNewOk s then
                  match translateStream map rest2 with
                  | Option.none => Option.none
                  | some (ts, ds) => some (.cons (.ident s isp) ts, ds)
                else Option.none
            | Option.none =>
                match translateStream map rest2 with
                | Option.none => Option.none
                | some (ts, ds) =>
                    some (.cons (.punct c spc sp)
                      (.cons (.ident name isp) ts), ds)
        | Option.none =>
            match translateStream map rest2 with
            | Option.none => Option.none
            | some (ts, ds) =>
                some (ts,
                  ⟨.cons (.punct c spc sp) (.cons (.ident name isp) .nil),
                    undefMsg name⟩ :: ds)
      else
        match translateStream map rest with
        | Option.none => Option.none
        | some (ts, ds) => some (.cons (.punct c spc sp) ts, ds)
  | .cons (.punct c spc sp) rest =>
      match translateStream map rest with
      | Option.none => Option.none
      | some (ts, ds) => some (.cons (.punct c spc sp) ts, ds)

/-- Rust `{:?}` formatting of a string, as used in the invalid-identifier
message (escape sequences are not modelled). -/
def debugQuote (s : String) : String := "\"" ++ s ++ "\""

/-- The driver's declaration loop (`ident_str`, the `for d in decls` loop):
checks redefinitions against the map built so far, validates resolved
values with `syn::parse_str::<Ident>` (clearing `can_continue` on
failure), and inserts every declaration, overwriting earlier bindings of
the same name.  State is `(map, errors, can_continue)`. -/
def buildMapAux (map : List (String × Decl)) (errs : List Diag)
    (canCont : Bool) : List Decl → List (String × Decl) × List Diag × Bool
  | [] => (map, errs, canCont)
  | d :: rest =>
      let errs1 := if (mapGet d.name map).isSome then
          errs ++ [⟨d.nameToTokens, "Redefinition of #" ++ d.name⟩]
        else errs
      match d.value with
      | some s =>
          if synParseIdent s then
            buildMapAux (mapInsert d.name d map) errs1 canCont rest
          else
            buildMapAux (mapInsert d.name d map)
              (errs1 ++ [⟨d.nameToTokens, "Invalid identifier: " ++ debugQuote s⟩])
              false rest
      | Option.none => buildMapAux (mapInsert d.name d map) errs1 canCont rest

/-- The placeholder map, diagnostics and `can_continue` flag the driver
computes from the declaration list. -/
def buildMap (decls : List Decl) : List (String × Decl) × List Diag × Bool :=
  buildMapAux [] [] true decls

/-- The span a diagnostic points at, taken from its first spanned token
(`Error::new_spanned` uses the tokens' source range). -/
def Diag.firstSpan (d : Diag) : Span :=
  match d.tokens with
  | .nil => callSite
  | .cons t _ => t.span

/-- `syn::Error::to_compile_error` for one diagnostic: a
`compile_error ! { "msg" }` invocation spanned at the diagnostic's span. -/
def renderDiag (d : Diag) : TokenStream :=
  .cons (.ident "compile_error" d.firstSpan)
    (.cons (.punct '!' .alone d.firstSpan)
      (.cons (.group .brace
        (.cons (.lit (debugQuote d.msg) d.firstSpan) .nil) d.firstSpan) .nil))

/-- `to_compile_error` over the combined error: one invocation per
accumulated diagnostic, in accumulation order. -/
def renderDiags : List Diag → TokenStream
  | [] => .nil
  | d :: ds => (renderDiag d).append (renderDiags ds)

/-- The driver `ident_str`, starting from the parsed declaration list and
body: build the placeholder map, rewrite the body when `can_continue`
holds (otherwise emit an empty body), and append the accumulated
diagnostics as `compile_error` tokens.  `none` models a panic escaping the
macro. -/
def identStr (decls : List Decl) (body : TokenStream) : Option TokenStream :=
  match buildMap decls with
  | (map, errs, canCont) =>
      if canCont then
        match translateStream map body with
        | Option.none => Option.none
        | some (out, errs2) => some (out.append (renderDiags (errs ++ errs2)))
      else some (renderDiags errs)

mutual
/-- Size of a token tree: the number of tokens in it, groups counting
their contents. -/
def TokenTree.size : TokenTree → Nat
  | .ident _ _ => 1
  | .lit _ _ => 1
  | .punct _ _ _ => 1
  | .group _ s _ => 1 + s.size

/-- Size of a token stream: the total number of tokens at every depth. -/
def TokenStream.size : TokenStream → Nat
  | .nil => 0
  | .cons t ts => t.size + ts.size
end

/-- Fuel-indexed variant of `translateStream`, one unit of fuel per
recursive call; the outer `Option.none` signals fuel exhaustion, the inner
one a panic.  Used to state that the rewriter's recursion terminates on
every finite stream. -/
def translateFuel (map : List (String × Decl)) :
    Nat → TokenStream → Option (Option (TokenStream × List Diag))
  | 0, _ => Option.none
  | n + 1, ts =>
      match ts with
      | .nil => some (some (.nil, []))
      | .cons (.ident nm sp) rest =>
          match translateFuel map n rest with
          | Option.none => Option.none
          | some Option.none => some Option.none
          | some (some (ts', ds)) => some (some (.cons (.ident nm sp) ts', ds))
      | .cons (.lit l sp) rest =>
          match translateFuel map n rest with
          | Option.none => Option.none
          | some Option.none => some Option.none
          | some (some (ts', ds)) => some (some (.cons (.lit l sp) ts', ds))
      | .cons (.group d inner sp) rest =>
          match translateFuel map n inner with
          | Option.none => Option.none
          | some Option.none => some Option.none
          | some (some (inner', ds1)) =>
              match translateFuel map n rest with
              | Option.none => Option.none
              | some Option.none => some Option.none
              | some (some (ts', ds2)) =>
                  some (some (.cons (.group d inner' callSite) ts', ds1 ++ ds2))
      | .cons (.punct c spc sp) (.cons (.ident name isp) rest2) =>
          if c = '#' then
            match mapGet name map with
            | some d =>
                match d.value with
                | some s =>
                    if identNewOk s then
                      match translateFuel map n rest2 with
                      | Option.none => Option.none
                      | some Option.none => some Option.none
                      | some (some (ts', ds)) =>
                          some (some (.cons (.ident s isp) ts', ds))
                    else some Option.none
                | Option.none =>
                    match translateFuel map n rest2 with
                    | Option.none => Option.none
                    | some Option.none => some Option.none
                    | some (some (ts', ds)) =>
                        some (some (.cons (.punct c spc sp)
                          (.cons (.ident name isp) ts'), ds))
            | Option.none =>
                match translateFuel map n rest2 with
                | Option.none => Option.none
                | some Option.none => some Option.none
                | some (some (ts', ds)) =>
                    some (some (ts',
                      ⟨.cons (.punct c spc sp) (.cons (.ident name isp) .nil),
                        undefMsg name⟩ :: ds))
          else
            match translateFuel map n (.cons (.ident name isp) rest2) with
            | Option.none => Option.none
            | some Option.none => some Option.none
            | some (some (ts', ds)) =>
                some (some (.cons (.punct c spc sp) ts', ds))
      | .cons (.punct c spc sp) rest =>
          match translateFuel map n rest with
          | Option.none => Option.none
          | some Option.none => some Option.none
          | some (some (ts', ds)) => some (some (.cons (.punct c spc sp) ts', ds))

/-- `true` iff the stream contains no `#` punctuation immediately followed
by an identifier, at any nesting depth. -/
def noHashIdent : TokenStream → Bool
  | .nil => true
  | .cons (.group _ inner _) rest => noHashIdent inner && noHashIdent rest
  | .cons (.punct c _ _) rest@(.cons (.ident _ _) _) =>
      if c = '#' then false else noHashIdent rest
  | .cons _ rest => noHashIdent rest

theorem translate_resolved_step (map : List (String × Decl)) (spc : Spacing)
    (hsp isp : Span) (k s : String) (rest : TokenStream) (d : Decl)
    (hget : mapGet k map = some d) (hval : d.value = some s)
    (hs : identNewOk s = true) :
    translateStream map (.cons (.punct '#' spc hsp) (.cons (.ident k isp) rest)) =
      (translateStream map rest).map (fun p => (.cons (.ident s isp) p.1, p.2)) := by
  cases h : translateStream map rest <;>
    simp [translateStream, hget, hval, hs, h]

theorem translate_absent_step (map : List (String × Decl)) (spc : Spacing)
    (hsp isp : Span) (k : String) (rest : TokenStream) (d : Decl)
    (hget : mapGet k map = some d) (hval : d.value = Option.none) :
    translateStream map (.cons (.punct '#' spc hsp) (.cons (.ident k isp) rest)) =
      (translateStream map rest).map
        (fun p => (.cons (.punct '#' spc hsp) (.cons (.ident k isp) p.1), p.2)) := by
  cases h : translateStream map rest <;>
    simp [translateStream, hget, hval, h]

theorem translate_undef_step (map : List (String × Decl)) (spc : Spacing)
    (hsp isp : Span) (k : String) (rest : TokenStream)
    (hget : mapGet k map = Option.none) :
    translateStream map (.cons (.punct '#' spc hsp) (.cons (.ident k isp) rest)) =
      (translateStream map rest).map
        (fun p => (p.1,
          ⟨.cons (.punct '#' spc hsp) (.cons (.ident k isp) .nil),
            undefMsg k⟩ :: p.2)) := by
  cases h : translateStream map rest <;>
    simp [translateStream, hget, h]

/-- C1: a body token sequence `#` then identifier `P` whose spelling `k`
is bound to `Resolved(s)` is consumed whole, and exactly one identifier
token is emitted in its place: spelling `s`, span that of `P` (`isp`), not
of the declaration; the rest of the stream is rewritten unchanged after
it.  The hypothesis `identNewOk s` is `Ident::new`'s validity requirement
— the spec's placeholder-map invariant that every resolved binding is a
valid identifier. -/
theorem hash_resolved_emits_single_ident (map : List (String × Decl))
    (spc : Spacing) (hsp isp : Span) (k s : String) (rest : TokenStream)
    (d : Decl) (hget : mapGet k map = some d) (hval : d.value = some s)
    (hs : identNewOk s = true) :
    translateStream map (.cons (.punct '#' spc hsp) (.cons (.ident k isp) rest)) =
      (translateStream map rest).map (fun p => (.cons (.ident s isp) p.1, p.2)) :=
  translate_resolved_step map spc hsp isp k s rest d hget hval hs

theorem hash_resolved_emits_single_ident_witness :
    mapGet "name" [("name", ⟨1, "name", 2, 3, some "hello_world"⟩)] =
        some ⟨1, "name", 2, 3, some "hello_world"⟩ ∧
    identNewOk "hello_world" = true ∧
    translateStream [("name", ⟨1, "name", 2, 3, some "hello_world"⟩)]
        (.cons (.punct '#' .alone 11) (.cons (.ident "name" 12) .nil)) =
      (translateStream [("name", ⟨1, "name", 2, 3, some "hello_world"⟩)] .nil).map
        (fun p => (.cons (.ident "hello_world" 12) p.1, p.2)) :=
  ⟨by decide, by decide,
    hash_resolved_emits_single_ident _ .alone 11 12 "name" "hello_world" .nil
      ⟨1, "name", 2, 3, some "hello_world"⟩ (by decide) rfl (by decide)⟩

/-- C2: span preservation fails for groups.  On a body consisting of one
parenthesized group with span 7 around `x`, the rewriter emits a group
whose span is `callSite` (the span `Group::new` attaches), not 7: the
source's `group.set_span(group.span())` reads the span of the freshly
built group it is about to assign, a self-assignment that drops the
original group's span. -/
theorem group_span_not_preserved :
    translateStream []
        (.cons (.group .paren (.cons (.ident "x" 5) .nil) 7) .nil) =
      some (.cons (.group .paren (.cons (.ident "x" 5) .nil) callSite) .nil, []) ∧
    callSite ≠ 7 := by
  refine ⟨by simp [translateStream], by decide⟩

/-- C4: a body occurrence of `#` then an identifier whose spelling `k` is
missing from the map emits no replacement tokens, records one diagnostic
spanning the `#` and the identifier whose message names `k` and suggests
`#k = None`, and continues rewriting the remainder of the stream. -/
theorem undefined_placeholder_diag_and_continue (map : List (String × Decl))
    (spc : Spacing) (hsp isp : Span) (k : String) (rest : TokenStream)
    (hget : mapGet k map = Option.none) :
    translateStream map (.cons (.punct '#' spc hsp) (.cons (.ident k isp) rest)) =
      (translateStream map rest).map
        (fun p => (p.1,
          ⟨.cons (.punct '#' spc hsp) (.cons (.ident k isp) .nil),
            undefMsg k⟩ :: p.2)) ∧
    undefMsg k = "Unknown ident variable.  If you intended to literally use '#"
      ++ k ++ "', add `#" ++ k ++ " = None` to the declarations" :=
  ⟨translate_undef_step map spc hsp isp k rest hget, rfl⟩

theorem undefined_placeholder_diag_and_continue_witness :
    mapGet "b" [] = Option.none ∧
    translateStream [] (.cons (.punct '#' .alone 11) (.cons (.ident "b" 12) .nil)) =
      (translateStream [] .nil).map
        (fun p => (p.1,
          ⟨.cons (.punct '#' .alone 11) (.cons (.ident "b" 12) .nil),
            undefMsg "b"⟩ :: p.2)) :=
  ⟨rfl, (undefined_placeholder_diag_and_continue [] .alone 11 12 "b" .nil rfl).1⟩

/-- C6: when `k` is bound to Absent (`#k = None`), a body occurrence of
`#` then `k` is emitted unchanged as the same two tokens — same spelling,
spacing and spans — and rewriting continues after them. -/
theorem absent_literal_passthrough (map : List (String × Decl))
    (spc : Spacing) (hsp isp : Span) (k : String) (rest : TokenStream)
    (d : Decl) (hget : mapGet k map = some d) (hval : d.value = Option.none) :
    translateStream map (.cons (.punct '#' spc hsp) (.cons (.ident k isp) rest)) =
      (translateStream map rest).map
        (fun p => (.cons (.punct '#' spc hsp) (.cons (.ident k isp) p.1), p.2)) :=
  translate_absent_step map spc hsp isp k rest d hget hval

theorem absent_literal_passthrough_witness :
    mapGet "keep" [("keep", ⟨1, "keep", 2, 3, Option.none⟩)] =
        some ⟨1, "keep", 2, 3, Option.none⟩ ∧
    translateStream [("keep", ⟨1, "keep", 2, 3, Option.none⟩)]
        (.cons (.punct '#' .alone 11) (.cons (.ident "keep" 12) .nil)) =
      (translateStream [("keep", ⟨1, "keep", 2, 3, Option.none⟩)] .nil).map
        (fun p => (.cons (.punct '#' .alone 11) (.cons (.ident "keep" 12) p.1), p.2)) :=
  ⟨by decide,
    absent_literal_passthrough _ .alone 11 12 "keep" .nil
      ⟨1, "keep", 2, 3, Option.none⟩ (by decide) rfl⟩

/-- C7: on a body with no `#`-prefixed identifier the rewriter is not the
identity: a group with span 7 comes back with span `callSite` (= 0).  The
output stream differs from the input, though erasing spans the two agree
token for token and no diagnostics are produced; the discrepancy is the
`set_span` self-assignment noted for the group case. -/
theorem rewrite_without_placeholders_alters_group_span :
    noHashIdent (.cons (.group .paren (.cons (.ident "x" 5) .nil) 7) .nil) = true ∧
    translateStream []
        (.cons (.group .paren (.cons (.ident "x" 5) .nil) 7) .nil) =
      some (.cons (.group .paren (.cons (.ident "x" 5) .nil) callSite) .nil, []) ∧
    (TokenStream.cons (.group .paren (.cons (.ident "x" 5) .nil) callSite) .nil) ≠
      (TokenStream.cons (.group .paren (.cons (.ident "x" 5) .nil) 7) .nil) ∧
    TokenStream.eraseSpans
        (.cons (.group .paren (.cons (.ident "x" 5) .nil) callSite) .nil) =
      TokenStream.eraseSpans
        (.cons (.group .paren (.cons (.ident "x" 5) .nil) 7) .nil) := by
  refine ⟨by simp [noHashIdent], by simp [translateStream], by decide, by decide⟩

theorem mapGet_mapInsert (k k' : String) (d : Decl) (m : List (String × Decl)) :
    mapGet k (mapInsert k' d m) = if k' = k then some d else mapGet k m := by
  induction m with
  | nil => simp [mapGet, mapInsert]
  | cons hd tl ih =>
      obtain ⟨k0, d0⟩ := hd
      by_cases h0 : k0 = k'
      · subst h0
        by_cases h1 : k0 = k
        · subst h1; simp [mapGet, mapInsert]
        · simp [mapGet, mapInsert, h1]
      · by_cases h1 : k0 = k
        · subst h1
          have h2 : ¬k' = k0 := fun h => h0 h.symm
          simp [mapGet, mapInsert, h0, h2]
        · simp [mapGet, mapInsert, h0, h1, ih]

theorem buildMapAux_shift (decls : List Decl) :
    ∀ (map : List (String × Decl)) (e0 e1 : List Diag) (cc : Bool),
    buildMapAux map (e0 ++ e1) cc decls =
      ((buildMapAux map e1 cc decls).1,
        e0 ++ (buildMapAux map e1 cc decls).2.1,
        (buildMapAux map e1 cc decls).2.2) := by
  induction decls with
  | nil => intro map e0 e1 cc; simp [buildMapAux]
  | cons d rest ih =>
      intro map e0 e1 cc
      cases hv : d.value with
      | none =>
          by_cases hg : (mapGet d.name map).isSome <;>
            simp [buildMapAux, hv, hg, ih, List.append_assoc]
      | some s =>
          by_cases hs : synParseIdent s <;>
          by_cases hg : (mapGet d.name map).isSome <;>
            simp [buildMapAux, hv, hg, hs, ih, List.append_assoc]

theorem buildMapAux_errs_mem (x : Diag) (decls : List Decl)
    (map : List (String × Decl)) (e : List Diag) (cc : Bool) (hx : x ∈ e) :
    x ∈ (buildMapAux map e cc decls).2.1 := by
  have h := buildMapAux_shift decls map e [] cc
  rw [List.append_nil] at h
  rw [h]
  exact List.mem_append_left _ hx

theorem buildMapAux_append (l1 l2 : List Decl) :
    ∀ (map : List (String × Decl)) (e : List Diag) (cc : Bool),
    buildMapAux map e cc (l1 ++ l2) =
      buildMapAux (buildMapAux map e cc l1).1 (buildMapAux map e cc l1).2.1
        (buildMapAux map e cc l1).2.2 l2 := by
  induction l1 with
  | nil => intro map e cc; simp [buildMapAux]
  | cons d rest ih =>
      intro map e cc
      cases hv : d.value with
      | none =>
          by_cases hg : (mapGet d.name map).isSome <;>
            simp [List.cons_append, buildMapAux, hv, hg, ih]
      | some s =>
          by_cases hs : synParseIdent s <;>
          by_cases hg : (mapGet d.name map).isSome <;>
            simp [List.cons_append, buildMapAux, hv, hg, hs, ih]

theorem buildMapAux_get_mono (decls : List Decl) :
    ∀ (map : List (String × Decl)) (e : List Diag) (cc : Bool) (k : String),
    (mapGet k map).isSome = true →
    (mapGet k (buildMapAux map e cc decls).1).isSome = true := by
  induction decls with
  | nil => intro map e cc k h; simpa [buildMapAux] using h
  | cons d rest ih =>
      intro map e cc k h
      have h' : (mapGet k (mapInsert d.name d map)).isSome = true := by
        rw [mapGet_mapInsert]
        by_cases hdk : d.name = k <;> simp [hdk, h]
      cases hv : d.value with
      | none =>
          by_cases hg : (mapGet d.name map).isSome <;>
            simp [buildMapAux, hv, hg] <;>
            exact ih _ _ _ _ h'
      | some s =>
          by_cases hs : synParseIdent s <;>
          by_cases hg : (mapGet d.name map).isSome <;>
            simp [buildMapAux, hv, hg, hs] <;>
            exact ih _ _ _ _ h'

theorem buildMapAux_get_of_mem (decls : List Decl) (d' : Decl)
    (hd : d' ∈ decls) :
    ∀ (map : List (String × Decl)) (e : List Diag) (cc : Bool),
    (mapGet d'.name (buildMapAux map e cc decls).1).isSome = true := by
  induction decls with
  | nil => cases hd
  | cons d rest ih =>
      intro map e cc
      rcases List.mem_cons.mp hd with h | h
      · subst h
        have hbase : (mapGet d'.name (mapInsert d'.name d' map)).isSome = true := by
          simp [mapGet_mapInsert]
        cases hv : d'.value with
        | none =>
            by_cases hg : (mapGet d'.name map).isSome <;>
              simp [buildMapAux, hv, hg] <;>
              exact buildMapAux_get_mono rest _ _ _ _ hbase
        | some s =>
            by_cases hs : synParseIdent s <;>
            by_cases hg : (mapGet d'.name map).isSome <;>
              simp [buildMapAux, hv, hg, hs] <;>
              exact buildMapAux_get_mono rest _ _ _ _ hbase
      · cases hv : d.value with
        | none =>
            by_cases hg : (mapGet d.name map).isSome <;>
              simp [buildMapAux, hv, hg] <;>
              exact ih h _ _ _
        | some s =>
            by_cases hs : synParseIdent s <;>
            by_cases hg : (mapGet d.name map).isSome <;>
              simp [buildMapAux, hv, hg, hs] <;>
              exact ih h _ _ _

theorem buildMapAux_get_of_forall_ne (decls : List Decl) (k : String)
    (h : ∀ d' ∈ decls, d'.name ≠ k) :
    ∀ (map : List (String × Decl)) (e : List Diag) (cc : Bool),
    mapGet k (buildMapAux map e cc decls).1 = mapGet k map := by
  induction decls with
  | nil => intro map e cc; simp [buildMapAux]
  | cons d rest ih =>
      intro map e cc
      have hne : d.name ≠ k := h d (List.mem_cons_self d rest)
      have ih' := ih (fun d' hd' => h d' (List.mem_cons_of_mem d hd'))
      have hins : mapGet k (mapInsert d.name d map) = mapGet k map := by
        rw [mapGet_mapInsert, if_neg hne]
      cases hv : d.value with
      | none =>
          by_cases hg : (mapGet d.name map).isSome <;>
            simp [buildMapAux, hv, hg] <;>
            rw [ih', hins]
      | some s =>
          by_cases hs : synParseIdent s <;>
          by_cases hg : (mapGet d.name map).isSome <;>
            simp [buildMapAux, hv, hg, hs] <;>
            rw [ih', hins]

theorem buildMapAux_cc_false (decls : List Decl) :
    ∀ (map : List (String × Decl)) (e : List Diag),
    (buildMapAux map e false decls).2.2 = false := by
  induction decls with
  | nil => intro map e; simp [buildMapAux]
  | cons d rest ih =>
      intro map e
      cases hv : d.value with
      | none =>
          by_cases hg : (mapGet d.name map).isSome <;>
            simp [buildMapAux, hv, hg] <;>
            exact ih _ _
      | some s =>
          by_cases hs : synParseIdent s <;>
          by_cases hg : (mapGet d.name map).isSome <;>
            simp [buildMapAux, hv, hg, hs] <;>
            exact ih _ _

theorem buildMapAux_cc_true (decls : List Decl)
    (h : ∀ d ∈ decls, ∀ s, d.value = some s → synParseIdent s = true) :
    ∀ (map : List (String × Decl)) (e : List Diag),
    (buildMapAux map e true decls).2.2 = true := by
  induction decls with
  | nil => intro map e; simp [buildMapAux]
  | cons d rest ih =>
      intro map e
      have ih' := ih (fun d' hd' => h d' (List.mem_cons_of_mem d hd'))
      cases hv : d.value with
      | none =>
          by_cases hg : (mapGet d.name map).isSome <;>
            simp [buildMapAux, hv, hg] <;>
            exact ih' _ _
      | some s =>
          have hs : synParseIdent s = true := h d (List.mem_cons_self d rest) s hv
          by_cases hg : (mapGet d.name map).isSome <;>
            simp [buildMapAux, hv, hg, hs] <;>
            exact ih' _ _

theorem buildMapAux_cc_false_of_bad (decls : List Decl) (d : Decl) (s : String)
    (hd : d ∈ decls) (hv : d.value = some s) (hbad : synParseIdent s = false) :
    ∀ (map : List (String × Decl)) (e : List Diag) (cc : Bool),
    (buildMapAux map e cc decls).2.2 = false := by
  induction decls with
  | nil => cases hd
  | cons d0 rest ih =>
      intro map e cc
      rcases List.mem_cons.mp hd with h | h
      · subst h
        by_cases hg : (mapGet d.name map).isSome <;>
          simp [buildMapAux, hv, hbad, hg] <;>
          exact buildMapAux_cc_false rest _ _
      · cases hv0 : d0.value with
        | none =>
            by_cases hg : (mapGet d0.name map).isSome <;>
              simp [buildMapAux, hv0, hg] <;>
              exact ih h _ _ _
        | some s0 =>
            by_cases hs : synParseIdent s0 <;>
            by_cases hg : (mapGet d0.name map).isSome <;>
              simp [buildMapAux, hv0, hg, hs] <;>
              exact ih h _ _ _

theorem buildMapAux_bad_diag_mem (decls : List Decl) (d : Decl) (s : String)
    (hd : d ∈ decls) (hv : d.value = some s) (hbad : synParseIdent s = false) :
    ∀ (map : List (String × Decl)) (e : List Diag) (cc : Bool),
    (⟨d.nameToTokens, "Invalid identifier: " ++ debugQuote s⟩ : Diag) ∈
      (buildMapAux map e cc decls).2.1 := by
  induction decls with
  | nil => cases hd
  | cons d0 rest ih =>
      intro map e cc
      rcases List.mem_cons.mp hd with h | h
      · subst h
        by_cases hg : (mapGet d.name map).isSome <;>
          simp [buildMapAux, hv, hbad, hg] <;>
          exact buildMapAux_errs_mem _ rest _ _ _ (by simp)
      · cases hv0 : d0.value with
        | none =>
            by_cases hg : (mapGet d0.name map).isSome <;>
              simp [buildMapAux, hv0, hg] <;>
              exact ih h _ _ _
        | some s0 =>
            by_cases hs : synParseIdent s0 <;>
            by_cases hg : (mapGet d0.name map).isSome <;>
              simp [buildMapAux, hv0, hg, hs] <;>
              exact ih h _ _ _

theorem identStr_of_cc_false (decls : List Decl) (body : TokenStream)
    (h : (buildMap decls).2.2 = false) :
    identStr decls body = some (renderDiags (buildMap decls).2.1) := by
  unfold identStr
  rcases hB : buildMap decls with ⟨m, e, cc⟩
  rw [hB] at h
  simp only at h
  subst h
  simp

theorem identStr_of_cc_true (decls : List Decl) (body : TokenStream)
    (h : (buildMap decls).2.2 = true) :
    identStr decls body = (translateStream (buildMap decls).1 body).map
      (fun p => p.1.append (renderDiags ((buildMap decls).2.1 ++ p.2))) := by
  unfold identStr
  rcases hB : buildMap decls with ⟨m, e, cc⟩
  rw [hB] at h
  simp only at h
  subst h
  cases htr : translateStream m body with
  | none => simp [htr]
  | some p => obtain ⟨ts, ds⟩ := p; simp [htr]

/-- C3 (counterexample): for the declaration list `#a = "1bad"` (tokens
`#` at span 1, name at span 2, `=` at span 3), the recorded
invalid-identifier diagnostic spans only the declaration's `#` and name
tokens (spans 1 and 2); the declaration's `=` token at span 3 lies outside
the spanned tokens, so the diagnostic does not span the whole
declaration. -/
theorem invalid_ident_diag_not_whole_decl :
    (buildMap [⟨1, "a", 2, 3, some "1bad"⟩]).2.1 =
      [⟨Decl.nameToTokens ⟨1, "a", 2, 3, some "1bad"⟩,
        "Invalid identifier: \"1bad\""⟩] ∧
    TokenStream.topSpans (Decl.nameToTokens ⟨1, "a", 2, 3, some "1bad"⟩) =
      [1, 2] ∧
    Decl.eqSpan ⟨1, "a", 2, 3, some "1bad"⟩ = 3 ∧
    (3 : Span) ∉ [(1 : Span), 2] := by
  refine ⟨by decide, by decide, rfl, by decide⟩

/-- C3 (amended): if some declaration's evaluated value fails the
identifier check, the driver clears `can_continue`, skips rewriting
entirely and returns an empty body accompanied only by the rendered
diagnostics, among them an invalid-identifier diagnostic spanning the
declaration's `#` and name tokens (not the whole declaration). -/
theorem invalid_ident_skips_rewrite (decls : List Decl) (body : TokenStream)
    (d : Decl) (s : String) (hd : d ∈ decls) (hv : d.value = some s)
    (hbad : synParseIdent s = false) :
    (buildMap decls).2.2 = false ∧
    identStr decls body = some (renderDiags (buildMap decls).2.1) ∧
    (⟨d.nameToTokens, "Invalid identifier: " ++ debugQuote s⟩ : Diag) ∈
      (buildMap decls).2.1 := by
  have hcc : (buildMap decls).2.2 = false :=
    buildMapAux_cc_false_of_bad decls d s hd hv hbad [] [] true
  exact ⟨hcc, identStr_of_cc_false decls body hcc,
    buildMapAux_bad_diag_mem decls d s hd hv hbad [] [] true⟩

theorem invalid_ident_skips_rewrite_witness :
    (⟨1, "a", 2, 3, some "1bad"⟩ : Decl) ∈ [(⟨1, "a", 2, 3, some "1bad"⟩ : Decl)] ∧
    synParseIdent "1bad" = false ∧
    ((buildMap [⟨1, "a", 2, 3, some "1bad"⟩]).2.2 = false ∧
      identStr [⟨1, "a", 2, 3, some "1bad"⟩] TokenStream.nil =
        some (renderDiags (buildMap [⟨1, "a", 2, 3, some "1bad"⟩]).2.1) ∧
      (⟨Decl.nameToTokens ⟨1, "a", 2, 3, some "1bad"⟩,
        "Invalid identifier: " ++ debugQuote "1bad"⟩ : Diag) ∈
        (buildMap [⟨1, "a", 2, 3, some "1bad"⟩]).2.1) :=
  ⟨by decide, by decide,
    invalid_ident_skips_rewrite _ TokenStream.nil _ "1bad" (by decide) rfl
      (by decide)⟩

/-- C5 (counterexample): for the declaration list `#a = "x", #a = "y"`
(second declaration with `#` at span 4, name at span 5, `=` at span 6),
the recorded redefinition diagnostic spans only the second declaration's
`#` and name tokens (spans 4 and 5); the second declaration's `=` token at
span 6 lies outside the spanned tokens, so the diagnostic does not span
the (whole) second declaration. -/
theorem redef_diag_not_whole_second_decl :
    (buildMap [⟨1, "a", 2, 3, some "x"⟩, ⟨4, "a", 5, 6, some "y"⟩]).2.1 =
      [⟨Decl.nameToTokens ⟨4, "a", 5, 6, some "y"⟩, "Redefinition of #a"⟩] ∧
    TokenStream.topSpans (Decl.nameToTokens ⟨4, "a", 5, 6, some "y"⟩) =
      [4, 5] ∧
    Decl.eqSpan ⟨4, "a", 5, 6, some "y"⟩ = 6 ∧
    (6 : Span) ∉ [(4 : Span), 5] := by
  refine ⟨by decide, by decide, rfl, by decide⟩

/-- C5 (amended): a second declaration of an already-declared name makes
the driver record a redefinition diagnostic attached to the second
declaration's `#` and name tokens, and the error accumulates rather than
aborting: with every resolved value a valid identifier, `can_continue`
stays set and the driver still rewrites the body. -/
theorem redefinition_accumulates (decls1 decls2 : List Decl) (d : Decl)
    (body : TokenStream)
    (hdup : ∃ d' ∈ decls1, d'.name = d.name)
    (hall : ∀ d0 ∈ decls1 ++ d :: decls2, ∀ s, d0.value = some s →
      synParseIdent s = true) :
    (⟨d.nameToTokens, "Redefinition of #" ++ d.name⟩ : Diag) ∈
      (buildMap (decls1 ++ d :: decls2)).2.1 ∧
    (buildMap (decls1 ++ d :: decls2)).2.2 = true ∧
    identStr (decls1 ++ d :: decls2) body =
      (translateStream (buildMap (decls1 ++ d :: decls2)).1 body).map
        (fun p => p.1.append
          (renderDiags ((buildMap (decls1 ++ d :: decls2)).2.1 ++ p.2))) := by
  have hcc : (buildMap (decls1 ++ d :: decls2)).2.2 = true :=
    buildMapAux_cc_true _ hall [] []
  refine ⟨?_, hcc, identStr_of_cc_true _ body hcc⟩
  obtain ⟨d', hd', hname⟩ := hdup
  have hg : (mapGet d.name (buildMapAux [] [] true decls1).1).isSome = true := by
    have h0 := buildMapAux_get_of_mem decls1 d' hd' [] [] true
    rwa [hname] at h0
  show _ ∈ (buildMapAux [] [] true (decls1 ++ d :: decls2)).2.1
  rw [buildMapAux_append]
  cases hv : d.value with
  | none =>
      simp only [buildMapAux, hv, hg, if_true]
      exact buildMapAux_errs_mem _ decls2 _ _ _ (by simp)
  | some s =>
      have hs : synParseIdent s = true :=
        hall d (List.mem_append_right _ (List.mem_cons_self d decls2)) s hv
      simp only [buildMapAux, hv, hg, hs, if_true]
      exact buildMapAux_errs_mem _ decls2 _ _ _ (by simp)

theorem redefinition_accumulates_witness :
    (∃ d' ∈ [(⟨1, "a", 2, 3, some "x"⟩ : Decl)],
      d'.name = (⟨4, "a", 5, 6, some "y"⟩ : Decl).name) ∧
    ((⟨Decl.nameToTokens ⟨4, "a", 5, 6, some "y"⟩,
        "Redefinition of #" ++ "a"⟩ : Diag) ∈
      (buildMap ([⟨1, "a", 2, 3, some "x"⟩] ++
        (⟨4, "a", 5, 6, some "y"⟩ : Decl) :: [])).2.1 ∧
    (buildMap ([⟨1, "a", 2, 3, some "x"⟩] ++
      (⟨4, "a", 5, 6, some "y"⟩ : Decl) :: [])).2.2 = true ∧
    identStr ([⟨1, "a", 2, 3, some "x"⟩] ++
        (⟨4, "a", 5, 6, some "y"⟩ : Decl) :: []) TokenStream.nil =
      (translateStream (buildMap ([⟨1, "a", 2, 3, some "x"⟩] ++
          (⟨4, "a", 5, 6, some "y"⟩ : Decl) :: [])).1 TokenStream.nil).map
        (fun p => p.1.append
          (renderDiags ((buildMap ([⟨1, "a", 2, 3, some "x"⟩] ++
            (⟨4, "a", 5, 6, some "y"⟩ : Decl) :: [])).2.1 ++ p.2)))) :=
  ⟨⟨⟨1, "a", 2, 3, some "x"⟩, by decide, rfl⟩,
    redefinition_accumulates [⟨1, "a", 2, 3, some "x"⟩] []
      ⟨4, "a", 5, 6, some "y"⟩ TokenStream.nil
      ⟨⟨1, "a", 2, 3, some "x"⟩, by decide, rfl⟩
      (by
        intro d0 hd0 s hs
        rcases List.mem_cons.mp hd0 with h | h0
        · subst h
          injection hs with h2
          subst h2
          decide
        · rcases List.mem_cons.mp h0 with h | h
          · subst h
            injection hs with h2
            subst h2
            decide
          · cases h)⟩

/-- C9: when the same placeholder name is declared more than once, the
driver's insertion overwrites the earlier binding: after the loop the map
binds the name to the last declaration carrying it, so body references to
that name resolve against the final declaration's value. -/
theorem map_retains_last_declaration (decls1 decls2 : List Decl) (d : Decl)
    (h : ∀ d' ∈ decls2, d'.name ≠ d.name) :
    mapGet d.name (buildMap (decls1 ++ d :: decls2)).1 = some d := by
  show mapGet d.name (buildMapAux [] [] true (decls1 ++ d :: decls2)).1 = some d
  rw [buildMapAux_append]
  have hrest := buildMapAux_get_of_forall_ne decls2 d.name h
  cases hv : d.value with
  | none =>
      by_cases hg : (mapGet d.name (buildMapAux [] [] true decls1).1).isSome <;>
        simp [buildMapAux, hv, hg, hrest, mapGet_mapInsert]
  | some s =>
      by_cases hs : synParseIdent s <;>
      by_cases hg : (mapGet d.name (buildMapAux [] [] true decls1).1).isSome <;>
        simp [buildMapAux, hv, hs, hg, hrest, mapGet_mapInsert]

theorem map_retains_last_declaration_witness :
    (∀ d' ∈ ([] : List Decl), d'.name ≠ (⟨4, "a", 5, 6, some "y"⟩ : Decl).name) ∧
    mapGet "a" (buildMap ([⟨1, "a", 2, 3, some "x"⟩] ++
        (⟨4, "a", 5, 6, some "y"⟩ : Decl) :: [])).1 =
      some ⟨4, "a", 5, 6, some "y"⟩ :=
  ⟨by simp,
    map_retains_last_declaration [⟨1, "a", 2, 3, some "x"⟩] []
      ⟨4, "a", 5, 6, some "y"⟩ (by simp)⟩

/-- Every resolved binding in the map satisfies `Ident::new`'s validity
requirement: the precondition under which the rewriter cannot reach its
panic branch.  The driver's check (`synParseIdent`) does not imply it:
`"r#foo"` passes the check yet fails `identNewOk`. -/
def MapValid (map : List (String × Decl)) : Prop :=
  ∀ k d, mapGet k map = some d → ∀ s, d.value = some s → identNewOk s = true

theorem translateStream_isSome (map : List (String × Decl)) (hmv : MapValid map) :
    ∀ ts : TokenStream, (translateStream map ts).isSome = true := by
  intro ts
  induction ts using translateStream.induct map <;> simp_all [translateStream]
  rename_i spc sp name isp rest2 d hget s hval hs
  exact absurd (hmv name d hget s hval) (by simp [hs])

/-- C8: the panic branch of building an identifier from a stored resolved
string is reachable at rewrite time.  The declaration `#a = "r#foo"`
passes the driver's check — `syn::parse_str::<Ident>` accepts the raw
identifier `r#foo`, whose spelling matches no refused spelling — so no
invalid-identifier diagnostic is recorded, `can_continue` stays set and
rewriting is invoked; but `Ident::new("r#foo", ..)` panics, since `#` is
not an identifier character and only `Ident::new_raw` accepts raw
spellings.  On the body `#a` the rewrite and the whole invocation
therefore panic (`Option.none`), contrary to the source's comment that
the conversion cannot fail after the driver's check. -/
theorem resolved_ident_construction_panics :
    synParseIdent "r#foo" = true ∧
    identNewOk "r#foo" = false ∧
    (buildMap [⟨1, "a", 2, 3, some "r#foo"⟩]).2.2 = true ∧
    translateStream (buildMap [⟨1, "a", 2, 3, some "r#foo"⟩]).1
        (.cons (.punct '#' .alone 11) (.cons (.ident "a" 12) .nil)) =
      Option.none ∧
    identStr [⟨1, "a", 2, 3, some "r#foo"⟩]
        (.cons (.punct '#' .alone 11) (.cons (.ident "a" 12) .nil)) =
      Option.none := by
  have hm : (buildMap [⟨1, "a", 2, 3, some "r#foo"⟩]).1 =
      [("a", ⟨1, "a", 2, 3, some "r#foo"⟩)] := by decide
  have htr : translateStream (buildMap [⟨1, "a", 2, 3, some "r#foo"⟩]).1
      (.cons (.punct '#' .alone 11) (.cons (.ident "a" 12) .nil)) =
      Option.none := by
    rw [hm]
    simp +decide [translateStream, mapGet]
  refine ⟨by decide, by decide, by decide, htr, ?_⟩
  rw [identStr_of_cc_true _ _ (by decide), htr]
  rfl

/-- C10: the rewriter terminates on every finite body token stream.  The
fuel-indexed rewriter, which spends one unit of fuel per recursive call
and descends only into group contents and stream tails, reaches the
rewrite's value within any fuel bound exceeding the stream's token count:
the recursion is well-founded and `translateStream` is a total function
of the stream and the placeholder map. -/
theorem translate_terminates_with_fuel (map : List (String × Decl))
    (n : Nat) (ts : TokenStream) (h : TokenStream.size ts < n) :
    translateFuel map n ts = some (translateStream map ts) := by
  induction n generalizing ts with
  | zero => exact absurd h (Nat.not_lt_zero _)
  | succ n ih =>
      cases ts with
      | nil => simp [translateFuel, translateStream]
      | cons t rest =>
          cases t with
          | ident nm sp =>
              have hr : TokenStream.size rest < n := by
                simp [TokenStream.size, TokenTree.size] at h; omega
              cases htr : translateStream map rest with
              | none => simp [translateFuel, translateStream, ih rest hr, htr]
              | some p =>
                  obtain ⟨ts', ds⟩ := p
                  simp [translateFuel, translateStream, ih rest hr, htr]
          | lit l sp =>
              have hr : TokenStream.size rest < n := by
                simp [TokenStream.size, TokenTree.size] at h; omega
              cases htr : translateStream map rest with
              | none => simp [translateFuel, translateStream, ih rest hr, htr]
              | some p =>
                  obtain ⟨ts', ds⟩ := p
                  simp [translateFuel, translateStream, ih rest hr, htr]
          | group dl inner sp =>
              have hi : TokenStream.size inner < n := by
                simp [TokenStream.size, TokenTree.size] at h; omega
              have hr : TokenStream.size rest < n := by
                simp [TokenStream.size, TokenTree.size] at h; omega
              cases hti : translateStream map inner with
              | none =>
                  simp [translateFuel, translateStream, ih inner hi, hti]
              | some p =>
                  obtain ⟨in2, ds1⟩ := p
                  cases htr : translateStream map rest with
                  | none =>
                      simp [translateFuel, translateStream, ih inner hi,
                        ih rest hr, hti, htr]
                  | some q =>
                      obtain ⟨ts2, ds2⟩ := q
                      simp [translateFuel, translateStream, ih inner hi,
                        ih rest hr, hti, htr]
          | punct c spc sp =>
              cases rest with
              | nil =>
                  have hr : TokenStream.size .nil < n := by
                    simp [TokenStream.size, TokenTree.size] at h ⊢; omega
                  simp [translateFuel, translateStream, ih .nil hr]
              | cons t2 rest2 =>
                  cases t2 with
                  | ident name isp =>
                      have hr2 : TokenStream.size rest2 < n := by
                        simp [TokenStream.size, TokenTree.size] at h; omega
                      have hr : TokenStream.size (.cons (.ident name isp) rest2) < n := by
                        simp [TokenStream.size, TokenTree.size] at h ⊢; omega
                      by_cases hc : c = '#'
                      · subst hc
                        cases hget : mapGet name map with
                        | none =>
                            cases htr : translateStream map rest2 with
                            | none =>
                                simp [translateFuel, translateStream,
                                  ih rest2 hr2, hget, htr]
                            | some p =>
                                obtain ⟨ts', ds⟩ := p
                                simp [translateFuel, translateStream,
                                  ih rest2 hr2, hget, htr]
                        | some d =>
                            cases hval : d.value with
                            | none =>
                                cases htr : translateStream map rest2 with
                                | none =>
                                    simp [translateFuel, translateStream,
                                      ih rest2 hr2, hget, hval, htr]
                                | some p =>
                                    obtain ⟨ts', ds⟩ := p
                                    simp [translateFuel, translateStream,
                                      ih rest2 hr2, hget, hval, htr]
                            | some s =>
                                by_cases hs : identNewOk s
                                · cases htr : translateStream map rest2 with
                                  | none =>
                                      simp [translateFuel, translateStream,
                                        ih rest2 hr2, hget, hval, hs, htr]
                                  | some p =>
                                      obtain ⟨ts', ds⟩ := p
                                      simp [translateFuel, translateStream,
                                        ih rest2 hr2, hget, hval, hs, htr]
                                · simp [translateFuel, translateStream,
                                    hget, hval, hs]
                      · cases htr : translateStream map rest2 with
                        | none =>
                            simp [translateFuel, translateStream, hc,
                              ih _ hr, ih rest2 hr2, htr]
                        | some p =>
                            obtain ⟨ts', ds⟩ := p
                            simp [translateFuel, translateStream, hc,
                              ih _ hr, ih rest2 hr2, htr]
                  | lit l2 sp2 =>
                      have hr : TokenStream.size (.cons (.lit l2 sp2) rest2) < n := by
                        simp [TokenStream.size, TokenTree.size] at h ⊢; omega
                      have hr2 : TokenStream.size rest2 < n := by
                        simp [TokenStream.size, TokenTree.size] at h; omega
                      cases htr : translateStream map rest2 with
                      | none =>
                          simp [translateFuel, translateStream, ih _ hr,
                            ih rest2 hr2, htr]
                      | some p =>
                          obtain ⟨ts', ds⟩ := p
                          simp [translateFuel, translateStream, ih _ hr,
                            ih rest2 hr2, htr]
                  | punct c2 spc2 sp2 =>
                      have hr : TokenStream.size (.cons (.punct c2 spc2 sp2) rest2) < n := by
                        simp [TokenStream.size, TokenTree.size] at h ⊢; omega
                      cases htr : translateStream map (.cons (.punct c2 spc2 sp2) rest2) with
                      | none =>
                          simp [translateFuel, translateStream, ih _ hr, htr]
                      | some p =>
                          obtain ⟨ts', ds⟩ := p
                          simp [translateFuel, translateStream, ih _ hr, htr]
                  | group dl2 inner2 sp2 =>
                      have hr : TokenStream.size (.cons (.group dl2 inner2 sp2) rest2) < n := by
                        simp [TokenStream.size, TokenTree.size] at h ⊢; omega
                      cases htr : translateStream map (.cons (.group dl2 inner2 sp2) rest2) with
                      | none =>
                          simp [translateFuel, translateStream, ih _ hr, htr]
                      | some p =>
                          obtain ⟨ts', ds⟩ := p
                          simp [translateFuel, translateStream, ih _ hr, htr]

theorem translate_terminates_with_fuel_witness :
    TokenStream.size (.cons (.ident "x" 1) .nil) < 2 ∧
    translateFuel [] 2 (.cons (.ident "x" 1) .nil) =
      some (translateStream [] (.cons (.ident "x" 1) .nil)) :=
  ⟨by decide,
    translate_terminates_with_fuel [] 2 (.cons (.ident "x" 1) .nil) (by decide)⟩

end IdentStr
